import Mathlib

/-
Verification development for the dcc-toolbox repository (tool_dock).

The Lean definitions below are a shallow embedding of the Python code in
src/tool_dock/tool_dock_utils.py (and the shared copies in
src/dcc_toolbox/dcc_toolbox_utils.py).  Python dictionaries (Py2 dicts /
OrderedDicts as used by the code) are modelled as association lists with the
insertion-order semantics of `dict.__setitem__` / `dict.pop`; Python values
appearing in settings and defaults are modelled by the inductive `PyVal`;
strings are Lean strings, with the handful of `str` methods the code uses
(`split`, `startswith`, `endswith`, `replace`) re-implemented structurally so
that every definition is executable and kernel-reducible.
-/

/-- Model of a Python runtime value as far as the code manipulates them:
None, booleans, integers and strings.  (Default values of introspected
functions and settings values; richer values never influence the control
flow of the modelled functions.) -/
inductive PyVal where
  | none
  | bool (b : Bool)
  | int (n : Int)
  | str (s : String)
deriving DecidableEq, Repr

/-- Model of Python `type(...)` as used by `ToolDockSettings.get_value`. -/
inductive PyType where
  | noneT
  | boolT
  | intT
  | strT
deriving DecidableEq, Repr

/-- Python `type(v)` on a `PyVal`. -/
def PyVal.typeOf : PyVal → PyType
  | .none => .noneT
  | .bool _ => .boolT
  | .int _ => .intT
  | .str _ => .strT

/-- Ordered-dictionary lookup (`d[k]` / `d.get(k)`): first entry with the key. -/
def odLookup {β : Type} : List (String × β) → String → Option β
  | [], _ => Option.none
  | e :: rest, k => if e.1 = k then some e.2 else odLookup rest k

/-- Ordered-dictionary assignment (`d[k] = v`): replace the value in place if
the key is present, otherwise append the new entry, as Python dicts do. -/
def odInsert {β : Type} : List (String × β) → String → β → List (String × β)
  | [], k, v => [(k, v)]
  | e :: rest, k, v => if e.1 = k then (k, v) :: rest else e :: odInsert rest k v

/-- Ordered-dictionary removal (`d.pop(k)`): drop the first entry with the key. -/
def odPop {β : Type} : List (String × β) → String → List (String × β)
  | [], _ => []
  | e :: rest, k => if e.1 = k then rest else e :: odPop rest k

/-- Marker class `RequiresValueType` ("argument has no default value") together
with the actual default values, as stored by `get_func_arguments`. -/
inductive ParamValue where
  | requiresValue
  | default (v : PyVal)
deriving DecidableEq, Repr

/-- The part of `inspect.getargspec` / `inspect.getfullargspec` the code reads:
the positional parameter names in declaration order and the tuple of declared
default values (aligned to the trailing parameters). -/
structure ArgSpec where
  args : List String
  defaults : List PyVal
deriving Repr

/-- Embedding of `get_func_arguments` (tool_dock_utils.py): every positional
parameter is first mapped to the `RequiresValueType` marker, then the default
list is walked from the end, pairing the last default with the last parameter
and so on (`zip(arg_spec.defaults[::-1], reversed(parameter_dict.keys()))`). -/
def get_func_arguments (func : ArgSpec) : List (String × ParamValue) :=
  let parameter_dict :=
    func.args.foldl (fun d name => odInsert d name ParamValue.requiresValue) []
  (func.defaults.reverse.zip (parameter_dict.map Prod.fst).reverse).foldl
    (fun d pk => odInsert d pk.2 (ParamValue.default pk.1)) parameter_dict

/-- Embedding of the parameter-collection loop of
`_InternalToolDockItemBase.auto_populate_parameters`: iterate over a snapshot
of the introspection result (Python 2 `dict.items()` returns a list), popping
the conventional `self` entry and replacing every `RequiresValueType` marker
with the empty string `str()`. -/
def auto_populate_parameters (run_arguments : List (String × ParamValue)) :
    List (String × ParamValue) :=
  run_arguments.foldl
    (fun d e =>
      if e.1 = "self" then odPop d e.1
      else if e.2 = ParamValue.requiresValue then
        odInsert d e.1 (ParamValue.default (PyVal.str ""))
      else d)
    run_arguments

section OdLemmas

variable {β : Type}

theorem odLookup_odInsert_self (st : List (String × β)) (k : String) (v : β) :
    odLookup (odInsert st k v) k = some v := by
  induction st with
  | nil => simp [odInsert, odLookup]
  | cons e rest ih =>
    by_cases h : e.1 = k
    · simp [odInsert, h, odLookup]
    · simp [odInsert, h, odLookup, ih]

theorem odLookup_odInsert_ne (st : List (String × β)) (k k' : String) (v : β)
    (h : k' ≠ k) : odLookup (odInsert st k v) k' = odLookup st k' := by
  have h1 : ¬ (k = k') := fun hk => h hk.symm
  induction st with
  | nil => simp [odInsert, odLookup, h1]
  | cons e rest ih =>
    by_cases he : e.1 = k
    · have h2 : ¬ (e.1 = k') := by rw [he]; exact h1
      simp [odInsert, he, odLookup, h1, h2]
    · by_cases he' : e.1 = k'
      · simp [odInsert, he, odLookup, he', h]
      · simp [odInsert, he, odLookup, he', ih]

theorem odInsert_eq_append_of_not_mem (st : List (String × β)) (k : String)
    (v : β) (h : k ∉ st.map Prod.fst) : odInsert st k v = st ++ [(k, v)] := by
  induction st with
  | nil => simp [odInsert]
  | cons e rest ih =>
    simp only [List.map_cons, List.mem_cons] at h
    push_neg at h
    have h1 : ¬ (e.1 = k) := fun he => h.1 he.symm
    simp [odInsert, h1, ih h.2]

theorem odLookup_append_left (st st' : List (String × β)) (k : String) (v : β)
    (h : odLookup st k = some v) : odLookup (st ++ st') k = some v := by
  induction st with
  | nil => simp [odLookup] at h
  | cons e rest ih =>
    by_cases he : e.1 = k
    · simpa [odLookup, he] using h
    · simp only [odLookup, he, if_false] at h
      simpa [odLookup, he] using ih h

theorem keys_odInsert_of_mem (st : List (String × β)) (k : String) (v : β)
    (h : k ∈ st.map Prod.fst) :
    (odInsert st k v).map Prod.fst = st.map Prod.fst := by
  induction st with
  | nil => simp at h
  | cons e rest ih =>
    by_cases he : e.1 = k
    · simp [odInsert, he]
    · have hk : k ∈ rest.map Prod.fst := by
        simp only [List.map_cons, List.mem_cons] at h
        rcases h with h | h
        · exact absurd h.symm he
        · exact h
      simp [odInsert, he, ih hk]

theorem keys_odInsert_of_not_mem (st : List (String × β)) (k : String) (v : β)
    (h : k ∉ st.map Prod.fst) :
    (odInsert st k v).map Prod.fst = st.map Prod.fst ++ [k] := by
  rw [odInsert_eq_append_of_not_mem st k v h]
  simp

theorem nodup_keys_odInsert (st : List (String × β)) (k : String) (v : β)
    (h : (st.map Prod.fst).Nodup) : ((odInsert st k v).map Prod.fst).Nodup := by
  by_cases hk : k ∈ st.map Prod.fst
  · rw [keys_odInsert_of_mem st k v hk]; exact h
  · rw [keys_odInsert_of_not_mem st k v hk]
    simp [List.nodup_append, h, hk]

end OdLemmas

section IntrospectorLemmas

theorem foldl_odInsert_fresh {β : Type} (L : List String) (v0 : β)
    (init : List (String × β)) (hnd : L.Nodup)
    (hfresh : ∀ k ∈ L, k ∉ init.map Prod.fst) :
    L.foldl (fun d name => odInsert d name v0) init
      = init ++ L.map (fun a => (a, v0)) := by
  induction L generalizing init with
  | nil => simp
  | cons a L' ih =>
    simp only [List.foldl_cons]
    rw [odInsert_eq_append_of_not_mem init a v0 (hfresh a (by simp))]
    rw [ih (init ++ [(a, v0)]) hnd.of_cons ?fresh]
    · simp
    case fresh =>
      intro k hk
      simp only [List.map_append, List.mem_append, List.map_cons, List.map_nil,
        List.mem_cons, List.not_mem_nil, or_false]
      push_neg
      refine ⟨hfresh k (by simp [hk]), ?_⟩
      intro hka
      rw [hka] at hk
      exact (List.nodup_cons.mp hnd).1 hk

theorem map_fst_map_pair {β : Type} (L : List String) (v0 : β) :
    (L.map (fun a => (a, v0))).map Prod.fst = L := by
  induction L with
  | nil => rfl
  | cons a t ih => simpa using ih

theorem foldl_update_cons (P : List (PyVal × String)) (e : String × ParamValue)
    (d : List (String × ParamValue)) (h : ∀ pk ∈ P, pk.2 ≠ e.1) :
    P.foldl (fun d pk => odInsert d pk.2 (ParamValue.default pk.1)) (e :: d)
      = e :: P.foldl (fun d pk => odInsert d pk.2 (ParamValue.default pk.1)) d := by
  induction P generalizing d with
  | nil => simp
  | cons pk P' ih =>
    simp only [List.foldl_cons]
    have h1 : ¬ (e.1 = pk.2) := fun hq => (h pk (by simp)) hq.symm
    have hstep : odInsert (e :: d) pk.2 (ParamValue.default pk.1)
        = e :: odInsert d pk.2 (ParamValue.default pk.1) := by
      simp [odInsert, h1]
    rw [hstep]
    exact ih _ (fun q hq => h q (by simp [hq]))

theorem zip_left_trunc {α β' : Type} (l1 : List α) (l2 l3 : List β')
    (h : l1.length ≤ l2.length) : l1.zip (l2 ++ l3) = l1.zip l2 := by
  induction l1 generalizing l2 with
  | nil => simp
  | cons x xs ih =>
    cases l2 with
    | nil => simp at h
    | cons y ys =>
      simp only [List.cons_append, List.zip_cons_cons]
      rw [ih ys (by simpa using h)]

theorem foldl_update_full (args : List String) (ds : List PyVal)
    (hnd : args.Nodup) (hlen : ds.length = args.length) :
    (ds.reverse.zip args.reverse).foldl
      (fun d pk => odInsert d pk.2 (ParamValue.default pk.1))
      (args.map (fun a => (a, ParamValue.requiresValue)))
      = args.zip (ds.map ParamValue.default) := by
  induction args generalizing ds with
  | nil =>
    have hds : ds = [] := List.eq_nil_of_length_eq_zero (by simpa using hlen)
    simp [hds]
  | cons a args' ih =>
    cases ds with
    | nil => simp at hlen
    | cons v ds' =>
      have hlen' : ds'.length = args'.length := by simpa using hlen
      rw [List.reverse_cons, List.reverse_cons,
        List.zip_append (by simpa using hlen'), List.foldl_append]
      simp only [List.map_cons]
      rw [foldl_update_cons _ _ _ ?pass]
      · rw [ih ds' hnd.of_cons hlen']
        simp [odInsert, List.zip_cons_cons]
      case pass =>
        intro pk hpk
        obtain ⟨p1, p2⟩ := pk
        have hmem := (List.of_mem_zip hpk).2
        simp only [List.mem_reverse] at hmem
        intro hq
        simp only at hq
        rw [hq] at hmem
        exact (List.nodup_cons.mp hnd).1 hmem

theorem foldl_update_main (args : List String) (ds : List PyVal)
    (hnd : args.Nodup) (hlen : ds.length ≤ args.length) :
    (ds.reverse.zip args.reverse).foldl
      (fun d pk => odInsert d pk.2 (ParamValue.default pk.1))
      (args.map (fun a => (a, ParamValue.requiresValue)))
      = (args.take (args.length - ds.length)).map
          (fun a => (a, ParamValue.requiresValue))
        ++ (args.drop (args.length - ds.length)).zip (ds.map ParamValue.default) := by
  induction args with
  | nil =>
    have hds : ds = [] := List.eq_nil_of_length_eq_zero (by
      exact Nat.le_zero.mp (by simpa using hlen))
    simp [hds]
  | cons a args' ih =>
    by_cases hle : ds.length ≤ args'.length
    · have hsub : (a :: args').length - ds.length = (args'.length - ds.length) + 1 := by
        simp only [List.length_cons]
        omega
      rw [hsub]
      simp only [List.take_succ_cons, List.drop_succ_cons, List.map_cons,
        List.cons_append]
      rw [List.reverse_cons, zip_left_trunc _ _ _ (by simpa using hle)]
      rw [foldl_update_cons _ _ _ ?pass]
      · rw [ih hnd.of_cons hle]
      case pass =>
        intro pk hpk
        obtain ⟨p1, p2⟩ := pk
        have hmem := (List.of_mem_zip hpk).2
        simp only [List.mem_reverse] at hmem
        intro hq
        simp only at hq
        rw [hq] at hmem
        exact (List.nodup_cons.mp hnd).1 hmem
    · have heq : ds.length = (a :: args').length := by
        simp only [List.length_cons] at hlen ⊢
        omega
      rw [heq]
      simp only [Nat.sub_self, List.take_zero, List.map_nil, List.drop_zero,
        List.nil_append]
      exact foldl_update_full (a :: args') ds hnd heq

/-- Characterisation of `get_func_arguments` on a callable with positional
parameters `args` and trailing defaults `ds`: the first `N - K` parameters are
marked `RequiresValueType` and the last `K` carry their declared defaults in
declaration order. -/
theorem get_func_arguments_eq (args : List String) (ds : List PyVal)
    (hnd : args.Nodup) (hlen : ds.length ≤ args.length) :
    get_func_arguments ⟨args, ds⟩
      = (args.take (args.length - ds.length)).map
          (fun a => (a, ParamValue.requiresValue))
        ++ (args.drop (args.length - ds.length)).zip (ds.map ParamValue.default) := by
  have hD0 : (args.foldl (fun d name => odInsert d name ParamValue.requiresValue)
        ([] : List (String × ParamValue)))
      = args.map (fun a => (a, ParamValue.requiresValue)) := by
    simpa using foldl_odInsert_fresh args ParamValue.requiresValue [] hnd (by simp)
  show (ds.reverse.zip
      ((args.foldl (fun d name => odInsert d name ParamValue.requiresValue)
        []).map Prod.fst).reverse).foldl
      (fun d pk => odInsert d pk.2 (ParamValue.default pk.1))
      (args.foldl (fun d name => odInsert d name ParamValue.requiresValue) []) = _
  rw [hD0]
  rw [map_fst_map_pair args ParamValue.requiresValue]
  exact foldl_update_main args ds hnd hlen

end IntrospectorLemmas

section SelfFilterLemmas

theorem count_keys_odPop {β : Type} (st : List (String × β)) (k : String) :
    ((odPop st k).map Prod.fst).count k = (st.map Prod.fst).count k - 1 := by
  induction st with
  | nil => simp [odPop]
  | cons e rest ih =>
    by_cases he : e.1 = k
    · simp [odPop, he, List.count_cons_self]
    · have : ¬ (e.1 == k) = true := by simpa using he
      simp [odPop, he, List.count_cons, this, ih]

theorem count_keys_odInsert_ne {β : Type} (st : List (String × β)) (k k' : String)
    (v : β) (h : k' ≠ k) :
    ((odInsert st k v).map Prod.fst).count k' = (st.map Prod.fst).count k' := by
  have h0 : ¬ (k = k') := fun hk => h hk.symm
  induction st with
  | nil => simp [odInsert, List.count_cons, h0]
  | cons e rest ih =>
    by_cases he : e.1 = k
    · have h2 : ¬ (k == k') = true := by simpa using fun hk => h hk.symm
      have h3 : ¬ (e.1 == k') = true := by
        simp only [beq_iff_eq, he]
        exact fun hk => h hk.symm
      simp [odInsert, he, List.count_cons, h2, h3]
    · simp [odInsert, he, List.count_cons, ih]

theorem auto_populate_loop_no_self (L : List (String × ParamValue)) :
    ∀ acc : List (String × ParamValue),
      (acc.map Prod.fst).count "self" ≤ (L.map Prod.fst).count "self" →
      ∀ p ∈ L.foldl
          (fun d e =>
            if e.1 = "self" then odPop d e.1
            else if e.2 = ParamValue.requiresValue then
              odInsert d e.1 (ParamValue.default (PyVal.str ""))
            else d)
          acc,
        p.1 ≠ "self" := by
  induction L with
  | nil =>
    intro acc hle p hp
    simp only [List.foldl_nil] at hp
    have hz : (acc.map Prod.fst).count "self" = 0 := Nat.le_zero.mp (by simpa using hle)
    have hns : "self" ∉ acc.map Prod.fst := List.count_eq_zero.mp hz
    intro hps
    exact hns (List.mem_map.mpr ⟨p, hp, hps⟩)
  | cons e L' ih =>
    intro acc hle p hp
    simp only [List.foldl_cons] at hp
    by_cases he : e.1 = "self"
    · rw [if_pos he] at hp
      refine ih (odPop acc e.1) ?_ p hp
      rw [he, count_keys_odPop acc "self"]
      have hcnt : ((e :: L').map Prod.fst).count "self"
          = (L'.map Prod.fst).count "self" + 1 := by
        simp [he, List.count_cons_self]
      omega
    · rw [if_neg he] at hp
      have hcnt : ((e :: L').map Prod.fst).count "self"
          = (L'.map Prod.fst).count "self" := by
        have : ¬ (e.1 == "self") = true := by simpa using he
        simp [List.count_cons, this]
      by_cases hr : e.2 = ParamValue.requiresValue
      · rw [if_pos hr] at hp
        refine ih _ ?_ p hp
        rw [count_keys_odInsert_ne acc e.1 "self" _ (fun hk => he hk.symm)]
        omega
      · rw [if_neg hr] at hp
        refine ih _ ?_ p hp
        omega

theorem auto_populate_parameters_no_self (L : List (String × ParamValue)) :
    ∀ p ∈ auto_populate_parameters L, p.1 ≠ "self" := by
  intro p hp
  exact auto_populate_loop_no_self L L (Nat.le_refl _) p
    (by simpa [auto_populate_parameters] using hp)

end SelfFilterLemmas

/-- C1: for every callable with `N` positional parameters of which the trailing
`K` have declared defaults (`K ≤ N`), `get_func_arguments` returns an ordered
mapping with exactly `N` entries in declaration order, where the first `N - K`
entries hold the `RequiresValueType` sentinel and the last `K` entries hold the
respective declared default values in their original order. -/
theorem C1_get_func_arguments_alignment (args : List String) (ds : List PyVal)
    (hnd : args.Nodup) (hlen : ds.length ≤ args.length) :
    get_func_arguments ⟨args, ds⟩
      = (args.take (args.length - ds.length)).map
          (fun a => (a, ParamValue.requiresValue))
        ++ (args.drop (args.length - ds.length)).zip (ds.map ParamValue.default)
    ∧ (get_func_arguments ⟨args, ds⟩).length = args.length := by
  refine ⟨get_func_arguments_eq args ds hnd hlen, ?_⟩
  rw [get_func_arguments_eq args ds hnd hlen]
  simp only [List.length_append, List.length_map, List.length_take,
    List.length_drop, List.length_zip]
  omega

theorem C1_witness :
    (["a", "b", "c"] : List String).Nodup
    ∧ [PyVal.int 1, PyVal.str "q"].length ≤ (["a", "b", "c"] : List String).length
    ∧ get_func_arguments ⟨["a", "b", "c"], [PyVal.int 1, PyVal.str "q"]⟩
        = [("a", ParamValue.requiresValue),
           ("b", ParamValue.default (PyVal.int 1)),
           ("c", ParamValue.default (PyVal.str "q"))]
    ∧ (get_func_arguments ⟨["a", "b", "c"], [PyVal.int 1, PyVal.str "q"]⟩).length
        = 3 := by
  have h := C1_get_func_arguments_alignment ["a", "b", "c"]
    [PyVal.int 1, PyVal.str "q"] (by decide) (by decide)
  refine ⟨by decide, by decide, ?_, h.2⟩
  simpa using h.1

/-- C6: the required marker returned by the introspector is a distinguished
sentinel that equals no legitimate default value, and every parameter covered
by a declared default (in particular a default of `None`) is reported with that
default and never with the required marker. -/
theorem C6_required_sentinel_distinct :
    (∀ v : PyVal, ParamValue.default v ≠ ParamValue.requiresValue)
    ∧ ∀ (args : List String) (ds : List PyVal), args.Nodup →
        ds.length ≤ args.length →
        ∀ nv ∈ (args.drop (args.length - ds.length)).zip ds,
          (nv.1, ParamValue.default nv.2) ∈ get_func_arguments ⟨args, ds⟩
          ∧ (nv.1, ParamValue.requiresValue) ∉ get_func_arguments ⟨args, ds⟩ := by
  constructor
  · intro v h
    exact ParamValue.noConfusion h
  · intro args ds hnd hlen nv hnv
    rw [get_func_arguments_eq args ds hnd hlen]
    constructor
    · apply List.mem_append_right
      rw [List.zip_map_right]
      exact List.mem_map.mpr ⟨nv, hnv, rfl⟩
    · intro hmem
      rcases List.mem_append.mp hmem with hmem | hmem
      · have h1 : nv.1 ∈ args.take (args.length - ds.length) := by
          rcases List.mem_map.mp hmem with ⟨a, ha, heq⟩
          cases heq
          exact ha
        have h2 : nv.1 ∈ args.drop (args.length - ds.length) :=
          (List.of_mem_zip hnv).1
        have hd : List.Disjoint (args.take (args.length - ds.length))
            (args.drop (args.length - ds.length)) := by
          apply List.disjoint_of_nodup_append
          rw [List.take_append_drop]
          exact hnd
        exact hd h1 h2
      · rw [List.zip_map_right] at hmem
        rcases List.mem_map.mp hmem with ⟨q, _, heq⟩
        obtain ⟨q1, q2⟩ := q
        simp only [Prod.map, id_eq, Prod.mk.injEq] at heq
        exact ParamValue.noConfusion heq.2

theorem C6_witness :
    ParamValue.default PyVal.none ≠ ParamValue.requiresValue
    ∧ ("x", ParamValue.default PyVal.none) ∈ get_func_arguments ⟨["x"], [PyVal.none]⟩
    ∧ ("x", ParamValue.requiresValue) ∉ get_func_arguments ⟨["x"], [PyVal.none]⟩ := by
  have h := C6_required_sentinel_distinct
  have h2 := h.2 ["x"] [PyVal.none] (by decide) (by decide)
    ("x", PyVal.none) (by decide)
  exact ⟨h.1 PyVal.none, h2.1, h2.2⟩

/-- C5: for a callable whose first positional parameter is the conventional
`self`, the introspector reports `self` like any other parameter (here: as the
leading required entry), while the parameter-form builder
`auto_populate_parameters` removes the `self` entry, so the generated form
never contains a `self` field. -/
theorem C5_self_reported_then_filtered (rest : List String) (ds : List PyVal)
    (hnd : ("self" :: rest).Nodup) (hlen : ds.length ≤ rest.length) :
    (get_func_arguments ⟨"self" :: rest, ds⟩).head?
        = some ("self", ParamValue.requiresValue)
    ∧ ∀ p ∈ auto_populate_parameters (get_func_arguments ⟨"self" :: rest, ds⟩),
        p.1 ≠ "self" := by
  constructor
  · rw [get_func_arguments_eq ("self" :: rest) ds hnd
      (by simp only [List.length_cons]; omega)]
    have hm : ("self" :: rest).length - ds.length
        = (rest.length - ds.length) + 1 := by
      simp only [List.length_cons]
      omega
    rw [hm]
    simp [List.take_succ_cons]
  · intro p hp
    exact auto_populate_parameters_no_self _ p hp

theorem C5_witness :
    ("self" :: ["x"]).Nodup
    ∧ ([] : List PyVal).length ≤ (["x"] : List String).length
    ∧ (get_func_arguments ⟨"self" :: ["x"], []⟩).head?
        = some ("self", ParamValue.requiresValue)
    ∧ "self" ∉ (auto_populate_parameters
        (get_func_arguments ⟨"self" :: ["x"], []⟩)).map Prod.fst := by
  have h := C5_self_reported_then_filtered ["x"] [] (by decide) (by decide)
  refine ⟨by decide, by decide, h.1, ?_⟩
  intro hmem
  rcases List.mem_map.mp hmem with ⟨p, hp, hfst⟩
  exact h.2 p hp hfst

/-- Python `str.startswith(pre)`. -/
def pyStartsWith (s pre : String) : Bool := pre.data.isPrefixOf s.data

/-- Python `str.endswith(suf)` (used by the `endswith(extension_filter)`
check in `get_paths_in_folder`). -/
def pyEndsWith (s suf : String) : Bool := suf.data.isSuffixOf s.data

/-- Python `str.split(sep)` for a single-character separator, on `List Char`. -/
def charSplit (sep : Char) : List Char → List (List Char)
  | [] => [[]]
  | c :: rest =>
    match charSplit sep rest with
    | [] => [[]]
    | g :: gs => if c = sep then [] :: g :: gs else (c :: g) :: gs

/-- Python `str.split(sep)` for a single-character separator. -/
def pySplit (s : String) (sep : Char) : List String :=
  (charSplit sep s.data).map (fun cs => String.mk cs)

/-- Python `os.path.basename` with `/` as the path separator. -/
def os_path_basename (p : String) : String :=
  String.mk ((charSplit '/' p.data).getLastD p.data)

/-- Root part of Python `os.path.splitext` on a base name: cut at the last dot
unless every character before that dot is itself a dot (Python treats leading
dots of the base name as part of the root, e.g. `.py` has no extension). -/
def splitextRoot (base : List Char) : List Char :=
  let rev := base.reverse
  if '.' ∈ rev then
    let extRev := rev.takeWhile (fun c => ¬ (c = '.'))
    let rootRev := rev.drop (extRev.length + 1)
    if rootRev.all (fun c => c = '.') then base
    else rootRev.reverse
  else base

/-- Derived tool name of a script path:
`os.path.splitext(os.path.basename(script_path))[0]`. -/
def script_name (script_path : String) : String :=
  String.mk (splitextRoot (os_path_basename script_path).data)

/-- Fuel-indexed scan for Python `str.replace` with a non-empty pattern:
replace non-overlapping occurrences from left to right. -/
def listReplaceAux (pat rep : List Char) : Nat → List Char → List Char
  | 0, s => s
  | _, [] => []
  | fuel + 1, c :: rest =>
    if (c :: rest).take pat.length = pat then
      rep ++ listReplaceAux pat rep fuel ((c :: rest).drop pat.length)
    else c :: listReplaceAux pat rep fuel rest

/-- Python `str.replace(old, new)`: every non-overlapping occurrence is
replaced; for an empty pattern Python inserts the replacement around every
character. -/
def pyReplace (s old new : String) : String :=
  if old.data = [] then
    String.mk (new.data ++ (s.data.map (fun c => c :: new.data)).flatten)
  else
    String.mk (listReplaceAux old.data new.data s.data.length s.data)

/-- Class attributes of a tool class synthesized by `make_class_from_script`. -/
structure DynamicClass where
  TOOL_NAME : String
  TOOL_TIP : String
  SCRIPT_PATH : String
deriving DecidableEq, Repr

/-- Embedding of `make_class_from_script` (tool_dock_utils.py): the synthesized
class records the tool name, uses the script path as tooltip and remembers the
path for its `run` method. -/
def make_class_from_script (script_path : String) (tool_name : String) :
    DynamicClass :=
  { TOOL_NAME := tool_name, TOOL_TIP := script_path, SCRIPT_PATH := script_path }

/-- One call to `runpy.run_path` as issued by a dynamic class's `run` method. -/
structure RunpyCall where
  path : String
  init_globals : Option (List String)
  run_name : String
deriving DecidableEq, Repr

/-- The module-level names of `tool_dock_utils` — the bindings of `globals()`
at the point where `make_class_from_script` defines `DynamicClass.run`
(dunder attributes omitted): the module's imports and its own definitions. -/
def tool_dock_utils_globals : List String :=
  ["collections", "importlib", "inspect", "os", "runpy", "sys", "partial",
   "parameter_grid", "ui_utils", "QtCore", "QtWidgets", "PY_2",
   "background_form", "RequiresValueType", "LocalConstants", "lk",
   "_InternalToolDockItemBase", "ToolDockItemBase", "ToolDockSettings",
   "import_extra_modules", "get_func_arguments", "all_subclasses",
   "get_tool_classes", "get_preview_from_script", "make_class_from_script",
   "get_paths_in_folder", "browse_for_settings_path",
   "save_tooldock_settings", "load_tooldock_settings"]

/-- The `run` method of a synthesized class:
`runpy.run_path(script_path, init_globals=globals(), run_name="__main__")`. -/
def DynamicClass.run (c : DynamicClass) : RunpyCall :=
  { path := c.SCRIPT_PATH,
    init_globals := some tool_dock_utils_globals,
    run_name := "__main__" }

/-- Model of the stdlib `runpy.run_path` namespace: the executed module's
global namespace is pre-populated with `init_globals` (when supplied) plus the
special module attributes; `__name__` is bound to `run_name`. -/
def runpy_exec_globals (call : RunpyCall) : List String :=
  (call.init_globals.getD [])
    ++ ["__name__", "__file__", "__loader__", "__package__", "__spec__",
        "__builtins__"]

/-- The `__name__` binding the executed script observes. -/
def runpy_exec_name (call : RunpyCall) : String := call.run_name

/-- Directory tree as the code observes it: `os.path.exists` on folders and
`os.walk` yielding `(dirpath, filenames)` entries in walk order. -/
structure FileSystem where
  exists_folder : String → Bool
  walk : String → List (String × List String)

/-- Python `os.path.join` with `/` as the path separator. -/
def os_path_join (folder file_name : String) : String :=
  folder ++ "/" ++ file_name

/-- Embedding of `get_paths_in_folder`: walk the folder tree and yield every
file whose name ends with the extension filter. -/
def get_paths_in_folder (fs : FileSystem) (root_folder : String)
    (extension_filter : String) : List String :=
  (fs.walk root_folder).flatMap
    (fun e => (e.2.filter (fun n => pyEndsWith n extension_filter)).map
      (os_path_join e.1))

/-- The environment variable `LocalConstants.env_script_folders`. -/
def env_script_folders : String := "TOOL_DOCK_SCRIPT_FOLDERS"

/-- Embedding of `LocalConstants.script_folders`:
`os.environ.get(env_script_folders, "D:/Google Drive/Scripting/_Scrsipts")`. -/
def script_folders (environ : String → Option String) : String :=
  (environ env_script_folders).getD "D:/Google Drive/Scripting/_Scrsipts"

/-- Mutable state of the process-wide `LocalConstants` registry (`lk`): the
configured folder string, the scanned-once guard and the name-to-class map. -/
structure RegistryState where
  script_folders : String
  dynamic_classes_generated : Bool
  dynamic_classes : List (String × DynamicClass)
deriving DecidableEq, Repr

/-- Embedding of `LocalConstants.dynamic_class_from_script`: derive the tool
name from the file's base name, skip if already registered, otherwise store a
freshly synthesized class under that name. -/
def dynamic_class_from_script (st : RegistryState) (script_path : String) :
    RegistryState :=
  let sname := script_name script_path
  if sname ∈ st.dynamic_classes.map Prod.fst then st
  else
    let script_cls := make_class_from_script script_path sname
    { st with dynamic_classes := odInsert st.dynamic_classes sname script_cls }

/-- Embedding of `LocalConstants.dynamic_classes_from_script_folder`. -/
def dynamic_classes_from_script_folder (fs : FileSystem) (st : RegistryState)
    (script_folder : String) : RegistryState :=
  (get_paths_in_folder fs script_folder ".py").foldl dynamic_class_from_script st

/-- Loop body of `generate_dynamic_classes`: empty folder strings are ignored,
folders that do not exist are skipped, every other folder is scanned. -/
def scan_folder_step (fs : FileSystem) (s : RegistryState)
    (script_folder : String) : RegistryState :=
  if script_folder = "" then s
  else if fs.exists_folder script_folder = false then s
  else dynamic_classes_from_script_folder fs s script_folder

/-- Embedding of `LocalConstants.generate_dynamic_classes` (state effect): an
empty folder configuration returns immediately; otherwise each non-empty,
existing folder of the semicolon-separated list is scanned, and the
scanned-once guard is set. -/
def generate_dynamic_classes (fs : FileSystem) (st : RegistryState) :
    RegistryState :=
  if st.script_folders = "" then st
  else
    let st' := (pySplit st.script_folders ';').foldl (scan_folder_step fs) st
    { st' with dynamic_classes_generated := true }

/-- Registry effect of `get_tool_classes`: lazily run
`generate_dynamic_classes` once (the subclass enumeration the function returns
is runtime reflection outside this model; its dynamic part is
`lk.dynamic_classes.values()`). -/
def get_tool_classes (fs : FileSystem) (st : RegistryState) : RegistryState :=
  if st.dynamic_classes_generated then st else generate_dynamic_classes fs st

section RegistryLemmas

theorem dcfs_script_folders (st : RegistryState) (p : String) :
    (dynamic_class_from_script st p).script_folders = st.script_folders := by
  by_cases h : script_name p ∈ st.dynamic_classes.map Prod.fst
  · simp [dynamic_class_from_script, h]
  · simp [dynamic_class_from_script, h]

theorem dcfs_generated (st : RegistryState) (p : String) :
    (dynamic_class_from_script st p).dynamic_classes_generated
      = st.dynamic_classes_generated := by
  by_cases h : script_name p ∈ st.dynamic_classes.map Prod.fst
  · simp [dynamic_class_from_script, h]
  · simp [dynamic_class_from_script, h]

theorem dcfs_lookup_preserved (st : RegistryState) (p : String) (k : String)
    (v : DynamicClass) (h : odLookup st.dynamic_classes k = some v) :
    odLookup (dynamic_class_from_script st p).dynamic_classes k = some v := by
  by_cases hmem : script_name p ∈ st.dynamic_classes.map Prod.fst
  · simpa [dynamic_class_from_script, hmem] using h
  · simp only [dynamic_class_from_script, hmem, if_false]
    rw [odInsert_eq_append_of_not_mem _ _ _ hmem]
    exact odLookup_append_left _ _ _ _ h

theorem dcfs_key_preserved (st : RegistryState) (p : String) (k : String)
    (h : k ∈ st.dynamic_classes.map Prod.fst) :
    k ∈ (dynamic_class_from_script st p).dynamic_classes.map Prod.fst := by
  by_cases hmem : script_name p ∈ st.dynamic_classes.map Prod.fst
  · simpa [dynamic_class_from_script, hmem] using h
  · simp only [dynamic_class_from_script, hmem, if_false]
    rw [keys_odInsert_of_not_mem _ _ _ hmem]
    exact List.mem_append_left _ h

theorem dcfs_name_added (st : RegistryState) (p : String) :
    script_name p ∈ (dynamic_class_from_script st p).dynamic_classes.map Prod.fst := by
  by_cases hmem : script_name p ∈ st.dynamic_classes.map Prod.fst
  · simp [dynamic_class_from_script, hmem]
  · simp only [dynamic_class_from_script, hmem, if_false]
    rw [keys_odInsert_of_not_mem _ _ _ hmem]
    simp

theorem dcfs_nodup (st : RegistryState) (p : String)
    (h : (st.dynamic_classes.map Prod.fst).Nodup) :
    ((dynamic_class_from_script st p).dynamic_classes.map Prod.fst).Nodup := by
  by_cases hmem : script_name p ∈ st.dynamic_classes.map Prod.fst
  · simpa [dynamic_class_from_script, hmem] using h
  · simp only [dynamic_class_from_script, hmem, if_false]
    exact nodup_keys_odInsert _ _ _ h

theorem pf_script_folders (L : List String) (st : RegistryState) :
    (L.foldl dynamic_class_from_script st).script_folders = st.script_folders := by
  induction L generalizing st with
  | nil => rfl
  | cons p L' ih =>
    simp only [List.foldl_cons]
    rw [ih, dcfs_script_folders]

theorem pf_generated (L : List String) (st : RegistryState) :
    (L.foldl dynamic_class_from_script st).dynamic_classes_generated
      = st.dynamic_classes_generated := by
  induction L generalizing st with
  | nil => rfl
  | cons p L' ih =>
    simp only [List.foldl_cons]
    rw [ih, dcfs_generated]

theorem pf_lookup_preserved (L : List String) (st : RegistryState) (k : String)
    (v : DynamicClass) (h : odLookup st.dynamic_classes k = some v) :
    odLookup (L.foldl dynamic_class_from_script st).dynamic_classes k = some v := by
  induction L generalizing st with
  | nil => exact h
  | cons p L' ih =>
    simp only [List.foldl_cons]
    exact ih _ (dcfs_lookup_preserved st p k v h)

theorem pf_key_preserved (L : List String) (st : RegistryState) (k : String)
    (h : k ∈ st.dynamic_classes.map Prod.fst) :
    k ∈ (L.foldl dynamic_class_from_script st).dynamic_classes.map Prod.fst := by
  induction L generalizing st with
  | nil => exact h
  | cons p L' ih =>
    simp only [List.foldl_cons]
    exact ih _ (dcfs_key_preserved st p k h)

theorem pf_name_added (L : List String) (st : RegistryState) (p : String)
    (hp : p ∈ L) :
    script_name p ∈ (L.foldl dynamic_class_from_script st).dynamic_classes.map Prod.fst := by
  induction L generalizing st with
  | nil => simp at hp
  | cons q L' ih =>
    simp only [List.foldl_cons]
    rcases List.mem_cons.mp hp with hq | hq
    · subst hq
      exact pf_key_preserved L' _ _ (dcfs_name_added st p)
    · exact ih _ hq

theorem pf_nodup (L : List String) (st : RegistryState)
    (h : (st.dynamic_classes.map Prod.fst).Nodup) :
    ((L.foldl dynamic_class_from_script st).dynamic_classes.map Prod.fst).Nodup := by
  induction L generalizing st with
  | nil => exact h
  | cons p L' ih =>
    simp only [List.foldl_cons]
    exact ih _ (dcfs_nodup st p h)

end RegistryLemmas

section GenerateLemmas

theorem sfs_script_folders (fs : FileSystem) (st : RegistryState) (f : String) :
    (scan_folder_step fs st f).script_folders = st.script_folders := by
  unfold scan_folder_step
  split
  · rfl
  · split
    · rfl
    · exact pf_script_folders _ _

theorem sfs_generated (fs : FileSystem) (st : RegistryState) (f : String) :
    (scan_folder_step fs st f).dynamic_classes_generated
      = st.dynamic_classes_generated := by
  unfold scan_folder_step
  split
  · rfl
  · split
    · rfl
    · exact pf_generated _ _

theorem sfs_lookup_preserved (fs : FileSystem) (st : RegistryState) (f : String)
    (k : String) (v : DynamicClass)
    (h : odLookup st.dynamic_classes k = some v) :
    odLookup (scan_folder_step fs st f).dynamic_classes k = some v := by
  unfold scan_folder_step
  split
  · exact h
  · split
    · exact h
    · exact pf_lookup_preserved _ _ _ _ h

theorem sfs_key_preserved (fs : FileSystem) (st : RegistryState) (f : String)
    (k : String) (h : k ∈ st.dynamic_classes.map Prod.fst) :
    k ∈ (scan_folder_step fs st f).dynamic_classes.map Prod.fst := by
  unfold scan_folder_step
  split
  · exact h
  · split
    · exact h
    · exact pf_key_preserved _ _ _ h

theorem sfs_nodup (fs : FileSystem) (st : RegistryState) (f : String)
    (h : (st.dynamic_classes.map Prod.fst).Nodup) :
    ((scan_folder_step fs st f).dynamic_classes.map Prod.fst).Nodup := by
  unfold scan_folder_step
  split
  · exact h
  · split
    · exact h
    · exact pf_nodup _ _ h

theorem ff_script_folders (fs : FileSystem) (folders : List String)
    (st : RegistryState) :
    (folders.foldl (scan_folder_step fs) st).script_folders
      = st.script_folders := by
  induction folders generalizing st with
  | nil => rfl
  | cons g gs ih =>
    simp only [List.foldl_cons]
    rw [ih, sfs_script_folders]

theorem ff_lookup_preserved (fs : FileSystem) (folders : List String)
    (st : RegistryState) (k : String) (v : DynamicClass)
    (h : odLookup st.dynamic_classes k = some v) :
    odLookup (folders.foldl (scan_folder_step fs) st).dynamic_classes k
      = some v := by
  induction folders generalizing st with
  | nil => exact h
  | cons g gs ih =>
    simp only [List.foldl_cons]
    exact ih _ (sfs_lookup_preserved fs st g k v h)

theorem ff_key_preserved (fs : FileSystem) (folders : List String)
    (st : RegistryState) (k : String)
    (h : k ∈ st.dynamic_classes.map Prod.fst) :
    k ∈ (folders.foldl (scan_folder_step fs) st).dynamic_classes.map Prod.fst := by
  induction folders generalizing st with
  | nil => exact h
  | cons g gs ih =>
    simp only [List.foldl_cons]
    exact ih _ (sfs_key_preserved fs st g k h)

theorem ff_nodup (fs : FileSystem) (folders : List String) (st : RegistryState)
    (h : (st.dynamic_classes.map Prod.fst).Nodup) :
    ((folders.foldl (scan_folder_step fs) st).dynamic_classes.map Prod.fst).Nodup := by
  induction folders generalizing st with
  | nil => exact h
  | cons g gs ih =>
    simp only [List.foldl_cons]
    exact ih _ (sfs_nodup fs st g h)

theorem ff_name_added (fs : FileSystem) (folders : List String)
    (st : RegistryState) (folder : String) (hf : folder ∈ folders)
    (hne : folder ≠ "") (hex : fs.exists_folder folder = true)
    (p : String) (hp : p ∈ get_paths_in_folder fs folder ".py") :
    script_name p
      ∈ (folders.foldl (scan_folder_step fs) st).dynamic_classes.map Prod.fst := by
  induction folders generalizing st with
  | nil => simp at hf
  | cons g gs ih =>
    simp only [List.foldl_cons]
    rcases List.mem_cons.mp hf with hg | hg
    · subst hg
      have hstep : scan_folder_step fs st folder
          = dynamic_classes_from_script_folder fs st folder := by
        unfold scan_folder_step
        rw [if_neg hne, if_neg (by simp [hex])]
      rw [hstep]
      exact ff_key_preserved fs gs _ _ (pf_name_added _ _ p hp)
    · exact ih _ hg

theorem gen_script_folders (fs : FileSystem) (st : RegistryState) :
    (generate_dynamic_classes fs st).script_folders = st.script_folders := by
  unfold generate_dynamic_classes
  split
  · rfl
  · exact ff_script_folders _ _ _

theorem gen_classes_empty (fs : FileSystem) (st : RegistryState)
    (h : st.script_folders = "") : generate_dynamic_classes fs st = st := by
  unfold generate_dynamic_classes
  rw [if_pos h]

theorem gen_generated_of_ne (fs : FileSystem) (st : RegistryState)
    (h : st.script_folders ≠ "") :
    (generate_dynamic_classes fs st).dynamic_classes_generated = true := by
  unfold generate_dynamic_classes
  rw [if_neg h]

theorem gen_lookup_preserved (fs : FileSystem) (st : RegistryState)
    (k : String) (v : DynamicClass)
    (h : odLookup st.dynamic_classes k = some v) :
    odLookup (generate_dynamic_classes fs st).dynamic_classes k = some v := by
  unfold generate_dynamic_classes
  split
  · exact h
  · exact ff_lookup_preserved _ _ _ _ _ h

theorem gen_nodup (fs : FileSystem) (st : RegistryState)
    (h : (st.dynamic_classes.map Prod.fst).Nodup) :
    ((generate_dynamic_classes fs st).dynamic_classes.map Prod.fst).Nodup := by
  unfold generate_dynamic_classes
  split
  · exact h
  · exact ff_nodup _ _ _ h

theorem gen_name_added (fs : FileSystem) (st : RegistryState) (folder : String)
    (hf : folder ∈ pySplit st.script_folders ';') (hne : folder ≠ "")
    (hex : fs.exists_folder folder = true) (p : String)
    (hp : p ∈ get_paths_in_folder fs folder ".py") :
    script_name p
      ∈ (generate_dynamic_classes fs st).dynamic_classes.map Prod.fst := by
  unfold generate_dynamic_classes
  split
  · next hsf =>
    exfalso
    rw [hsf] at hf
    have : pySplit "" ';' = [""] := rfl
    rw [this] at hf
    simp only [List.mem_singleton] at hf
    exact hne hf
  · exact ff_name_added fs _ st folder hf hne hex p hp

end GenerateLemmas

/-- C2 (counterexample): the namespace in which a synthesized tool runs its
script is not fresh — `run` passes `init_globals=globals()`, so the executed
namespace contains the framework module's own bindings (here the registry
singleton `lk`), contradicting the claim that it contains no bindings from the
framework's own module. -/
theorem C2_counterexample :
    "lk" ∈ tool_dock_utils_globals
    ∧ "lk" ∈ runpy_exec_globals ((make_class_from_script "D:/scripts/a.py" "a").run) := by
  decide

/-- C2 (amended): running a synthesized tool executes the descriptor's script
path with the run name set to `__main__` (as if it were the process entry
point), but in a global namespace pre-populated with the framework module's
own globals (`init_globals=globals()`) plus the special module attributes —
not in a fresh namespace free of framework bindings. -/
theorem C2_run_semantics (script_path tool_name : String) :
    runpy_exec_name ((make_class_from_script script_path tool_name).run)
        = "__main__"
    ∧ (make_class_from_script script_path tool_name).run.path = script_path
    ∧ (make_class_from_script script_path tool_name).run.init_globals
        = some tool_dock_utils_globals
    ∧ runpy_exec_globals ((make_class_from_script script_path tool_name).run)
        = tool_dock_utils_globals
          ++ ["__name__", "__file__", "__loader__", "__package__", "__spec__",
              "__builtins__"] :=
  ⟨rfl, rfl, rfl, rfl⟩

theorem ff_no_exists (fs : FileSystem) (folders : List String)
    (h : ∀ f ∈ folders, fs.exists_folder f = false) (st : RegistryState) :
    folders.foldl (scan_folder_step fs) st = st := by
  induction folders generalizing st with
  | nil => rfl
  | cons g gs ih =>
    simp only [List.foldl_cons]
    have hstep : scan_folder_step fs st g = st := by
      unfold scan_folder_step
      by_cases hg : g = ""
      · rw [if_pos hg]
      · rw [if_neg hg, if_pos (h g (by simp))]
    rw [hstep]
    exact ih (fun f hf => h f (by simp [hf])) st

theorem gen_classes_of_ne (fs : FileSystem) (st : RegistryState)
    (h : st.script_folders ≠ "") :
    generate_dynamic_classes fs st
      = { (pySplit st.script_folders ';').foldl (scan_folder_step fs) st with
          dynamic_classes_generated := true } := by
  unfold generate_dynamic_classes
  rw [if_neg h]

/-- Boolean side condition for C4: every folder named by the configured folder
string is absent from the file system. -/
def folders_all_missing (fs : FileSystem) (st : RegistryState) : Bool :=
  (pySplit st.script_folders ';').all (fun f => !fs.exists_folder f)

/-- C4 (counterexample): with the environment variable
`TOOL_DOCK_SCRIPT_FOLDERS` absent, `LocalConstants.script_folders` is not the
empty string claimed by the specification — it falls back to a hardcoded
developer path. -/
theorem C4_counterexample : script_folders (fun _ => Option.none) ≠ "" := by
  decide

/-- C4 (amended): when the environment variable is absent the configured
folder string is the hardcoded fallback `D:/Google Drive/Scripting/_Scrsipts`
(not empty); on a file system where no configured folder exists, a scan still
silently leaves the registry empty (the model is total, so no error can be
raised). -/
theorem C4_missing_env_fallback (fs : FileSystem) (st : RegistryState)
    (_hsf : st.script_folders = script_folders (fun _ => Option.none))
    (hmiss : folders_all_missing fs st = true)
    (hempty : st.dynamic_classes = []) :
    script_folders (fun _ => Option.none) = "D:/Google Drive/Scripting/_Scrsipts"
    ∧ (generate_dynamic_classes fs st).dynamic_classes = [] := by
  refine ⟨rfl, ?_⟩
  have hfold : ∀ f ∈ pySplit st.script_folders ';', fs.exists_folder f = false := by
    intro f hf
    have hb := List.all_eq_true.mp hmiss f hf
    simpa using hb
  by_cases hsf0 : st.script_folders = ""
  · rw [gen_classes_empty fs st hsf0]
    exact hempty
  · rw [gen_classes_of_ne fs st hsf0]
    show ((pySplit st.script_folders ';').foldl (scan_folder_step fs)
      st).dynamic_classes = []
    rw [ff_no_exists fs _ hfold st]
    exact hempty

def fsC4 : FileSystem := ⟨fun _ => false, fun _ => []⟩

def stC4 : RegistryState :=
  ⟨"D:/Google Drive/Scripting/_Scrsipts", false, []⟩

theorem C4_witness :
    stC4.script_folders = script_folders (fun _ => Option.none)
    ∧ folders_all_missing fsC4 stC4 = true
    ∧ stC4.dynamic_classes = []
    ∧ script_folders (fun _ => Option.none)
        = "D:/Google Drive/Scripting/_Scrsipts"
    ∧ (generate_dynamic_classes fsC4 stC4).dynamic_classes = [] := by
  have h := C4_missing_env_fallback fsC4 stC4 (by decide) (by decide) (by decide)
  exact ⟨by decide, by decide, by decide, h.1, h.2⟩

/-- C3: scanning is idempotent once a scan has run — a second
`get_tool_classes` leaves the registry state unchanged even if the file system
gained matching files — while an explicitly forced re-walk
(`generate_dynamic_classes`, re-run directly) keeps every existing descriptor
untouched and registers a descriptor name for every matching file found under
the configured folders. -/
theorem C3_scan_idempotent_refresh_merges (fs1 fs2 : FileSystem)
    (st : RegistryState) :
    get_tool_classes fs2 (get_tool_classes fs1 st) = get_tool_classes fs1 st
    ∧ (∀ k v, odLookup (get_tool_classes fs1 st).dynamic_classes k = some v →
        odLookup (generate_dynamic_classes fs2
          (get_tool_classes fs1 st)).dynamic_classes k = some v)
    ∧ ∀ folder ∈ pySplit (get_tool_classes fs1 st).script_folders ';',
        folder ≠ "" → fs2.exists_folder folder = true →
        ∀ p ∈ get_paths_in_folder fs2 folder ".py",
          script_name p ∈ (generate_dynamic_classes fs2
            (get_tool_classes fs1 st)).dynamic_classes.map Prod.fst := by
  refine ⟨?_, ?_, ?_⟩
  · by_cases hg : st.dynamic_classes_generated = true
    · simp [get_tool_classes, hg]
    · by_cases hsf : st.script_folders = ""
      · have h1 : generate_dynamic_classes fs1 st = st := gen_classes_empty fs1 st hsf
        have h2 : generate_dynamic_classes fs2 st = st := gen_classes_empty fs2 st hsf
        simp [get_tool_classes, hg, h1, h2]
      · have h1 : (generate_dynamic_classes fs1 st).dynamic_classes_generated = true :=
          gen_generated_of_ne fs1 st hsf
        simp [get_tool_classes, hg, h1]
  · intro k v h
    exact gen_lookup_preserved fs2 _ k v h
  · intro folder hf hne hex p hp
    exact gen_name_added fs2 _ folder hf hne hex p hp

def fsC3a : FileSystem := ⟨fun _ => false, fun _ => []⟩

def fsC3b : FileSystem :=
  ⟨fun f => f == "root",
   fun f => if f == "root" then [("root", ["c.py"])] else []⟩

def stC3 : RegistryState :=
  ⟨"root", false, [("a", make_class_from_script "old/a.py" "a")]⟩

theorem C3_witness :
    get_tool_classes fsC3b (get_tool_classes fsC3a stC3)
        = get_tool_classes fsC3a stC3
    ∧ odLookup (get_tool_classes fsC3a stC3).dynamic_classes "a"
        = some (make_class_from_script "old/a.py" "a")
    ∧ odLookup (generate_dynamic_classes fsC3b
          (get_tool_classes fsC3a stC3)).dynamic_classes "a"
        = some (make_class_from_script "old/a.py" "a")
    ∧ "root" ∈ pySplit (get_tool_classes fsC3a stC3).script_folders ';'
    ∧ "root/c.py" ∈ get_paths_in_folder fsC3b "root" ".py"
    ∧ script_name "root/c.py" ∈ (generate_dynamic_classes fsC3b
          (get_tool_classes fsC3a stC3)).dynamic_classes.map Prod.fst := by
  have h := C3_scan_idempotent_refresh_merges fsC3a fsC3b stC3
  refine ⟨h.1, by decide, ?_, by decide, by decide, ?_⟩
  · exact h.2.1 "a" (make_class_from_script "old/a.py" "a") (by decide)
  · exact h.2.2 "root" (by decide) (by decide) (by decide) "root/c.py" (by decide)

/-- C7: within one registry state with duplicate-free tool names, processing a
discovered file preserves duplicate-freeness; the tool name is the file's base
name with the extension stripped; a file whose derived name is already
registered is skipped with the state left unchanged (first discovery wins);
an unregistered name is appended with its synthesized descriptor; and a whole
`generate_dynamic_classes` walk preserves duplicate-freeness. -/
theorem C7_name_dedup_first_wins (st : RegistryState) (p : String)
    (hnd : (st.dynamic_classes.map Prod.fst).Nodup) :
    ((dynamic_class_from_script st p).dynamic_classes.map Prod.fst).Nodup
    ∧ (script_name p ∈ st.dynamic_classes.map Prod.fst →
        dynamic_class_from_script st p = st)
    ∧ (script_name p ∉ st.dynamic_classes.map Prod.fst →
        (dynamic_class_from_script st p).dynamic_classes
          = st.dynamic_classes
            ++ [(script_name p, make_class_from_script p (script_name p))])
    ∧ ∀ fs : FileSystem,
        ((generate_dynamic_classes fs st).dynamic_classes.map Prod.fst).Nodup := by
  refine ⟨dcfs_nodup st p hnd, ?_, ?_, fun fs => gen_nodup fs st hnd⟩
  · intro hmem
    simp [dynamic_class_from_script, hmem]
  · intro hmem
    simp only [dynamic_class_from_script, hmem, if_false]
    exact odInsert_eq_append_of_not_mem _ _ _ hmem

def stC7 : RegistryState :=
  ⟨"", true, [("a", make_class_from_script "root/a.py" "a")]⟩

theorem C7_witness :
    (stC7.dynamic_classes.map Prod.fst).Nodup
    ∧ dynamic_class_from_script stC7 "sub/a.py" = stC7
    ∧ (dynamic_class_from_script stC7 "sub/b.py").dynamic_classes
        = stC7.dynamic_classes ++ [("b", make_class_from_script "sub/b.py" "b")]
    ∧ ((dynamic_class_from_script stC7 "sub/b.py").dynamic_classes.map
        Prod.fst).Nodup := by
  have h1 := C7_name_dedup_first_wins stC7 "sub/a.py" (by decide)
  have h2 := C7_name_dedup_first_wins stC7 "sub/b.py" (by decide)
  refine ⟨by decide, h1.2.1 (by decide), ?_, h2.1⟩
  exact h2.2.2.1 (by decide)

/-- An INI-backed `QSettings` store: keys mapped to their persisted string
representation, in insertion order. -/
abbrev Store : Type := List (String × String)

/-- How `QSettings` persists a value into an INI file: strings verbatim,
booleans as `true`/`false`, integers in decimal. -/
def iniSerialize : PyVal → String
  | .str s => s
  | .bool true => "true"
  | .bool false => "false"
  | .int n => toString n
  | .none => ""

/-- `QSettings.setValue(key, value)` on an INI store. -/
def setValue (st : Store) (key : String) (v : PyVal) : Store :=
  odInsert st key (iniSerialize v)

/-- `QSettings.value(key, defaultValue=...)`: a present key reads back as the
persisted string, an absent key yields the supplied default. -/
def settings_value (st : Store) (key : String) (defaultValue : PyVal) : PyVal :=
  match odLookup st key with
  | some s => PyVal.str s
  | Option.none => defaultValue

/-- `QSettings.allKeys()`. -/
def allKeys (st : Store) : List String := st.map Prod.fst

/-- Embedding of `ToolDockSettings.get_value`: remember the type of a
non-`None` default, read the raw value, and only when the default's type is
`bool` normalize the result — `True` exactly for the stored representations
`("true", "True", "1", 1, True)`, `False` for everything else. -/
def get_value (st : Store) (key : String) (dflt : PyVal) : PyVal :=
  let data_type : Option PyType :=
    if dflt = PyVal.none then Option.none else some dflt.typeOf
  let settings_val := settings_value st key dflt
  if data_type = some PyType.boolT then
    if settings_val ∈ [PyVal.str "true", PyVal.str "True", PyVal.str "1",
        PyVal.int 1, PyVal.bool true]
    then PyVal.bool true else PyVal.bool false
  else settings_val

/-- Embedding of `save_tooldock_settings` (the settings transfer itself; path
browsing is UI and outside the model): copy every key of `settings` that
starts with the current tooldock prefix into a fresh standalone store, reading
each value with `get_value(key)` (no default), then record the source
namespace under the `tooldock` marker key. -/
def save_tooldock_settings (settings : Store) (current_tooldock : String) :
    Store :=
  let out_settings :=
    (allKeys settings).foldl
      (fun out setting_key =>
        if pyStartsWith setting_key current_tooldock then
          setValue out setting_key (get_value settings setting_key PyVal.none)
        else out)
      ([] : Store)
  setValue out_settings "tooldock" (PyVal.str current_tooldock)

/-- Embedding of `load_tooldock_settings`: read the `tooldock` marker from the
source store, then merge every key starting with that marker into the target
store, rewriting the key with `str.replace(settings_tooldock,
target_tooldock)`; a missing marker makes the Python code raise
(`startswith(None)`), modelled as `Option.none`. -/
def load_tooldock_settings (target_settings : Store) (target_tooldock : String)
    (source_settings : Store) : Option Store :=
  match odLookup source_settings "tooldock" with
  | Option.none => Option.none
  | some settings_tooldock =>
    some ((allKeys source_settings).foldl
      (fun tgt setting_key =>
        if pyStartsWith setting_key settings_tooldock then
          setValue tgt (pyReplace setting_key settings_tooldock target_tooldock)
            (get_value source_settings setting_key PyVal.none)
        else tgt)
      target_settings)

section SettingsLemmas

theorem mem_keys_of_odLookup {β : Type} (st : List (String × β)) (k : String)
    (v : β) (h : odLookup st k = some v) : k ∈ st.map Prod.fst := by
  induction st with
  | nil => simp [odLookup] at h
  | cons e rest ih =>
    by_cases he : e.1 = k
    · simp [he]
    · simp only [odLookup, he, if_false] at h
      simp [ih h]

theorem foldl_ite_filter {α β : Type} (L : List α) (p : α → Bool)
    (h : β → α → β) (init : β) :
    L.foldl (fun acc x => if p x then h acc x else acc) init
      = (L.filter p).foldl h init := by
  induction L generalizing init with
  | nil => rfl
  | cons a L' ih =>
    simp only [List.foldl_cons, List.filter_cons]
    by_cases hp : p a
    · simp only [hp, if_true, List.foldl_cons]
      exact ih (h init a)
    · simp only [hp, if_false]
      exact ih init

theorem odLookup_foldl_insert_ne {β : Type} (L : List String)
    (g : String → String) (f : String → β) (init : List (String × β))
    (t : String) (h : ∀ k ∈ L, g k ≠ t) :
    odLookup (L.foldl (fun acc k => odInsert acc (g k) (f k)) init) t
      = odLookup init t := by
  induction L generalizing init with
  | nil => rfl
  | cons a L' ih =>
    simp only [List.foldl_cons]
    rw [ih _ (fun k hk => h k (by simp [hk]))]
    exact odLookup_odInsert_ne init (g a) t (f a) (fun ht => h a (by simp) ht.symm)

theorem odLookup_foldl_insert {β : Type} (L : List String)
    (g : String → String) (f : String → β) (init : List (String × β))
    (k0 : String) (hk0 : k0 ∈ L)
    (hinj : ∀ k ∈ L, g k = g k0 → k = k0) :
    odLookup (L.foldl (fun acc k => odInsert acc (g k) (f k)) init) (g k0)
      = some (f k0) := by
  induction L generalizing init with
  | nil => simp at hk0
  | cons a L' ih =>
    simp only [List.foldl_cons]
    by_cases hmem : k0 ∈ L'
    · exact ih _ hmem (fun k hk hg => hinj k (by simp [hk]) hg)
    · have ha : a = k0 := by
        rcases List.mem_cons.mp hk0 with h | h
        · exact h.symm
        · exact absurd h hmem
      subst ha
      have hne : ∀ k ∈ L', g k ≠ g a := by
        intro k hk hg
        exact hmem (hinj k (by simp [hk]) hg ▸ hk)
      rw [odLookup_foldl_insert_ne L' g f _ (g a) hne]
      exact odLookup_odInsert_self _ _ _

theorem foldl_odInsert_fresh_f {β : Type} (L : List String) (f : String → β)
    (init : List (String × β)) (hnd : L.Nodup)
    (hfresh : ∀ k ∈ L, k ∉ init.map Prod.fst) :
    L.foldl (fun acc k => odInsert acc k (f k)) init
      = init ++ L.map (fun k => (k, f k)) := by
  induction L generalizing init with
  | nil => simp
  | cons a L' ih =>
    simp only [List.foldl_cons]
    rw [odInsert_eq_append_of_not_mem init a (f a) (hfresh a (by simp))]
    rw [ih (init ++ [(a, f a)]) hnd.of_cons ?fresh]
    · simp
    case fresh =>
      intro k hk
      simp only [List.map_append, List.mem_append, List.map_cons, List.map_nil,
        List.mem_cons, List.not_mem_nil, or_false]
      push_neg
      refine ⟨hfresh k (by simp [hk]), ?_⟩
      intro hka
      rw [hka] at hk
      exact (List.nodup_cons.mp hnd).1 hk

theorem store_fold_lookup_id (F : List String) (f0 : String → PyVal)
    (init : Store) (k0 : String) (hk0 : k0 ∈ F) :
    odLookup (F.foldl (fun out k => setValue out k (f0 k)) init) k0
      = some (iniSerialize (f0 k0)) :=
  odLookup_foldl_insert F id (fun k => iniSerialize (f0 k)) init k0 hk0
    (fun _ _ h => h)

theorem store_fold_lookup_g (F : List String) (g : String → String)
    (f0 : String → PyVal) (init : Store) (k0 : String) (hk0 : k0 ∈ F)
    (hinj : ∀ k ∈ F, g k = g k0 → k = k0) :
    odLookup (F.foldl (fun out k => setValue out (g k) (f0 k)) init) (g k0)
      = some (iniSerialize (f0 k0)) :=
  odLookup_foldl_insert F g (fun k => iniSerialize (f0 k)) init k0 hk0 hinj

theorem map_fst_map_pair_f {β : Type} (L : List String) (f : String → β) :
    (L.map (fun k => (k, f k))).map Prod.fst = L := by
  induction L with
  | nil => rfl
  | cons a t ih => simpa using ih

theorem store_fold_keys (F : List String) (f0 : String → PyVal)
    (hnd : F.Nodup) :
    allKeys (F.foldl (fun out k => setValue out k (f0 k)) ([] : Store)) = F := by
  have h : (F.foldl (fun out k => setValue out k (f0 k)) ([] : Store))
      = [] ++ F.map (fun k => (k, iniSerialize (f0 k))) :=
    foldl_odInsert_fresh_f F (fun k => iniSerialize (f0 k)) [] hnd (by simp)
  show (F.foldl (fun out k => setValue out k (f0 k)) ([] : Store)).map Prod.fst
    = F
  rw [h, List.nil_append, map_fst_map_pair_f]

theorem odLookup_setValue_self (st : Store) (key : String) (v : PyVal) :
    odLookup (setValue st key v) key = some (iniSerialize v) :=
  odLookup_odInsert_self st key (iniSerialize v)

theorem odLookup_setValue_ne (st : Store) (key key' : String) (v : PyVal)
    (h : key' ≠ key) : odLookup (setValue st key v) key' = odLookup st key' :=
  odLookup_odInsert_ne st key key' (iniSerialize v) h

theorem allKeys_setValue_of_not_mem (st : Store) (key : String) (v : PyVal)
    (h : key ∉ allKeys st) : allKeys (setValue st key v) = allKeys st ++ [key] :=
  keys_odInsert_of_not_mem st key (iniSerialize v) h

theorem save_fold_eq (S : Store) (A : String) :
    save_tooldock_settings S A
      = setValue
          (((allKeys S).filter (fun k => pyStartsWith k A)).foldl
            (fun out k => setValue out k (get_value S k PyVal.none)) [])
          "tooldock" (PyVal.str A) := by
  unfold save_tooldock_settings
  exact congrArg (fun x => setValue x "tooldock" (PyVal.str A))
    (foldl_ite_filter (allKeys S) (fun k => pyStartsWith k A)
      (fun out k => setValue out k (get_value S k PyVal.none)) [])

theorem load_fold_eq (T : Store) (B : String) (src : Store) (m : String)
    (hm : odLookup src "tooldock" = some m) :
    load_tooldock_settings T B src
      = some (((allKeys src).filter (fun k => pyStartsWith k m)).foldl
          (fun tgt k =>
            setValue tgt (pyReplace k m B) (get_value src k PyVal.none)) T) := by
  unfold load_tooldock_settings
  rw [hm]
  exact congrArg some
    (foldl_ite_filter (allKeys src) (fun k => pyStartsWith k m)
      (fun tgt k =>
        setValue tgt (pyReplace k m B) (get_value src k PyVal.none)) T)

theorem get_value_none_of_lookup (st : Store) (key s : String)
    (h : odLookup st key = some s) :
    get_value st key PyVal.none = PyVal.str s := by
  simp [get_value, settings_value, h]

theorem get_value_str_of_lookup (st : Store) (key s t : String)
    (h : odLookup st key = some s) :
    get_value st key (PyVal.str t) = PyVal.str s := by
  simp [get_value, settings_value, h, PyVal.typeOf]

theorem get_value_int_of_lookup (st : Store) (key s : String) (n : Int)
    (h : odLookup st key = some s) :
    get_value st key (PyVal.int n) = PyVal.str s := by
  simp [get_value, settings_value, h, PyVal.typeOf]

theorem get_value_bool_of_lookup (st : Store) (key s : String) (d : Bool)
    (h : odLookup st key = some s) :
    get_value st key (PyVal.bool d)
      = PyVal.bool (s == "true" || s == "True" || s == "1") := by
  simp only [get_value, settings_value, h, PyVal.typeOf]
  by_cases h1 : s = "true"
  · simp [h1]
  · by_cases h2 : s = "True"
    · simp [h2]
    · by_cases h3 : s = "1"
      · simp [h3]
      · simp [h1, h2, h3]

end SettingsLemmas

/-- C8 (counterexample): export followed by import rewrites every occurrence
of the source namespace inside a key, not only the leading prefix — the
exported key `dockA/dockA` reappears as `dockB/dockB`, and the
prefix-rewritten key `dockB/dockA` promised by the claim is absent from the
target store. -/
theorem C8_counterexample :
    load_tooldock_settings [] "dockB"
        (save_tooldock_settings [("dockA/dockA", "x")] "dockA")
      = some [("dockB/dockB", "x")]
    ∧ odLookup ([("dockB/dockB", "x")] : Store) "dockB/dockA" = Option.none :=
  ⟨by decide, by decide⟩

/-- C8 (amended): exporting the keys of namespace `dockA` and importing into
namespace `dockB` reproduces every exported key with every occurrence of
`dockA` replaced by `dockB` (which is exactly the prefix rewrite whenever
`dockA` occurs only as the leading prefix), with the persisted value preserved
verbatim — in particular a stored boolean `"true"` still reads back as the
boolean true — provided the occurrence rewriting does not collide two
distinct exported keys. -/
theorem C8_export_import_roundtrip (S : Store) (hnd : (allKeys S).Nodup)
    (hinj : ∀ k1 ∈ allKeys S, ∀ k2 ∈ allKeys S,
        pyStartsWith k1 "dockA" = true → pyStartsWith k2 "dockA" = true →
        pyReplace k1 "dockA" "dockB" = pyReplace k2 "dockA" "dockB" → k1 = k2)
    (k v : String) (hk : odLookup S k = some v)
    (hpre : pyStartsWith k "dockA" = true) :
    load_tooldock_settings [] "dockB" (save_tooldock_settings S "dockA")
        ≠ Option.none
    ∧ ∀ t, load_tooldock_settings [] "dockB" (save_tooldock_settings S "dockA")
          = some t →
        odLookup t (pyReplace k "dockA" "dockB") = some v
        ∧ (v = "true" →
            get_value t (pyReplace k "dockA" "dockB") (PyVal.bool false)
              = PyVal.bool true) := by
  have hktd : k ≠ "tooldock" := by
    intro hkeq
    rw [hkeq] at hpre
    exact absurd hpre (by decide)
  have hkmem : k ∈ allKeys S := mem_keys_of_odLookup S k v hk
  have hkF : k ∈ (allKeys S).filter (fun x => pyStartsWith x "dockA") :=
    List.mem_filter.mpr ⟨hkmem, hpre⟩
  have hFnd : ((allKeys S).filter (fun x => pyStartsWith x "dockA")).Nodup :=
    hnd.filter _
  have hfold_k : odLookup
      (((allKeys S).filter (fun x => pyStartsWith x "dockA")).foldl
        (fun out x => setValue out x (get_value S x PyVal.none)) []) k
      = some v := by
    have h1 := store_fold_lookup_id
      ((allKeys S).filter (fun x => pyStartsWith x "dockA"))
      (fun x => get_value S x PyVal.none) [] k hkF
    have hf0 : iniSerialize (get_value S k PyVal.none) = v := by
      rw [get_value_none_of_lookup S k v hk]
      rfl
    rw [hf0] at h1
    exact h1
  have hexp_k : odLookup (save_tooldock_settings S "dockA") k = some v := by
    rw [save_fold_eq S "dockA", odLookup_setValue_ne _ _ _ _ hktd]
    exact hfold_k
  have hmarker : odLookup (save_tooldock_settings S "dockA") "tooldock"
      = some "dockA" := by
    rw [save_fold_eq S "dockA"]
    exact odLookup_setValue_self _ _ _
  have hload := load_fold_eq [] "dockB" (save_tooldock_settings S "dockA")
    "dockA" hmarker
  have hkeysexp : allKeys (save_tooldock_settings S "dockA")
      = (allKeys S).filter (fun x => pyStartsWith x "dockA") ++ ["tooldock"] := by
    rw [save_fold_eq S "dockA"]
    have htd : "tooldock" ∉ allKeys
        (((allKeys S).filter (fun x => pyStartsWith x "dockA")).foldl
          (fun out x => setValue out x (get_value S x PyVal.none)) []) := by
      rw [store_fold_keys _ _ hFnd]
      intro hmem
      exact absurd (List.mem_filter.mp hmem).2 (by decide)
    rw [allKeys_setValue_of_not_mem _ _ _ htd, store_fold_keys _ _ hFnd]
  have hF2 : (allKeys (save_tooldock_settings S "dockA")).filter
        (fun x => pyStartsWith x "dockA")
      = (allKeys S).filter (fun x => pyStartsWith x "dockA") := by
    rw [hkeysexp, List.filter_append]
    have h1 : ((allKeys S).filter (fun x => pyStartsWith x "dockA")).filter
          (fun x => pyStartsWith x "dockA")
        = (allKeys S).filter (fun x => pyStartsWith x "dockA") :=
      List.filter_eq_self.mpr (fun a ha => (List.mem_filter.mp ha).2)
    have h2 : (["tooldock"] : List String).filter
        (fun x => pyStartsWith x "dockA") = [] := by decide
    rw [h1, h2, List.append_nil]
  refine ⟨?_, ?_⟩
  · rw [hload]
    simp
  · intro t ht
    rw [hload] at ht
    injection ht with ht2
    subst ht2
    have hinj' : ∀ x ∈ (allKeys S).filter (fun y => pyStartsWith y "dockA"),
        pyReplace x "dockA" "dockB" = pyReplace k "dockA" "dockB" → x = k := by
      intro x hx hrep
      have hx' := List.mem_filter.mp hx
      exact hinj x hx'.1 k hkmem hx'.2 hpre hrep
    have hlook2 := store_fold_lookup_g
      ((allKeys S).filter (fun y => pyStartsWith y "dockA"))
      (fun x => pyReplace x "dockA" "dockB")
      (fun x => get_value (save_tooldock_settings S "dockA") x PyVal.none)
      [] k hkF hinj'
    have hf1 : iniSerialize
        (get_value (save_tooldock_settings S "dockA") k PyVal.none) = v := by
      rw [get_value_none_of_lookup _ k v hexp_k]
      rfl
    rw [hf1] at hlook2
    have hmain : odLookup
        (((allKeys (save_tooldock_settings S "dockA")).filter
            (fun x => pyStartsWith x "dockA")).foldl
          (fun tgt x => setValue tgt (pyReplace x "dockA" "dockB")
            (get_value (save_tooldock_settings S "dockA") x PyVal.none)) [])
        (pyReplace k "dockA" "dockB") = some v := by
      rw [hF2]
      exact hlook2
    refine ⟨hmain, ?_⟩
    intro hv
    rw [get_value_bool_of_lookup _ _ v false hmain, hv]
    decide

theorem C8_witness :
    (allKeys [("dockA/x", "true")]).Nodup
    ∧ odLookup ([("dockA/x", "true")] : Store) "dockA/x" = some "true"
    ∧ pyStartsWith "dockA/x" "dockA" = true
    ∧ load_tooldock_settings [] "dockB"
        (save_tooldock_settings [("dockA/x", "true")] "dockA")
        = some [("dockB/x", "true")]
    ∧ odLookup ([("dockB/x", "true")] : Store)
        (pyReplace "dockA/x" "dockA" "dockB") = some "true"
    ∧ get_value [("dockB/x", "true")] (pyReplace "dockA/x" "dockA" "dockB")
        (PyVal.bool false) = PyVal.bool true := by
  have h := C8_export_import_roundtrip [("dockA/x", "true")] (by decide)
    (by decide) "dockA/x" "true" (by decide) (by decide)
  have h2 := h.2 [("dockB/x", "true")] (by decide)
  exact ⟨by decide, by decide, by decide, by decide, h2.1, h2.2 rfl⟩

/-- C9: reading a stored settings value back through `get_value` with a
boolean default normalizes exactly the stored representations `"true"`,
`"True"` and `"1"` to the boolean true; every other stored representation
reads back as the boolean false. -/
theorem C9_stored_bool_normalization (st : Store) (key s : String) (d : Bool)
    (h : odLookup st key = some s) :
    get_value st key (PyVal.bool d)
      = PyVal.bool (s == "true" || s == "True" || s == "1") :=
  get_value_bool_of_lookup st key s d h

theorem C9_witness :
    odLookup ([("k", "True"), ("j", "yes")] : Store) "k" = some "True"
    ∧ odLookup ([("k", "True"), ("j", "yes")] : Store) "j" = some "yes"
    ∧ get_value [("k", "True"), ("j", "yes")] "k" (PyVal.bool false)
        = PyVal.bool true
    ∧ get_value [("k", "True"), ("j", "yes")] "j" (PyVal.bool true)
        = PyVal.bool false := by
  have h1 := C9_stored_bool_normalization [("k", "True"), ("j", "yes")] "k"
    "True" false (by decide)
  have h2 := C9_stored_bool_normalization [("k", "True"), ("j", "yes")] "j"
    "yes" true (by decide)
  exact ⟨by decide, by decide, h1, h2⟩

/-- C10: `get_value` applies the boolean normalization only when the supplied
default is a non-`None` boolean — with the default `None` or a string or
integer default the stored string comes back unchanged (a stored `"true"`
stays the string `"true"`) — and consequently `save_tooldock_settings`, which
reads every key with no default, copies every matching stored value verbatim
with no boolean conversion. -/
theorem C10_get_value_raw_unless_bool :
    (∀ (st : Store) (key s : String), odLookup st key = some s →
        get_value st key PyVal.none = PyVal.str s
        ∧ (∀ t : String, get_value st key (PyVal.str t) = PyVal.str s)
        ∧ (∀ n : Int, get_value st key (PyVal.int n) = PyVal.str s))
    ∧ ∀ (S : Store) (A k s : String), odLookup S k = some s →
        pyStartsWith k A = true → k ≠ "tooldock" →
        odLookup (save_tooldock_settings S A) k = some s := by
  constructor
  · intro st key s h
    exact ⟨get_value_none_of_lookup st key s h,
      fun t => get_value_str_of_lookup st key s t h,
      fun n => get_value_int_of_lookup st key s n h⟩
  · intro S A k s hk hpre hktd
    have hkF : k ∈ (allKeys S).filter (fun x => pyStartsWith x A) :=
      List.mem_filter.mpr ⟨mem_keys_of_odLookup S k s hk, hpre⟩
    have h1 := store_fold_lookup_id ((allKeys S).filter
      (fun x => pyStartsWith x A)) (fun x => get_value S x PyVal.none) [] k hkF
    have hf0 : iniSerialize (get_value S k PyVal.none) = s := by
      rw [get_value_none_of_lookup S k s hk]
      rfl
    rw [hf0] at h1
    rw [save_fold_eq S A, odLookup_setValue_ne _ _ _ _ hktd]
    exact h1

theorem C10_witness :
    odLookup ([("dockA/x", "true")] : Store) "dockA/x" = some "true"
    ∧ get_value [("dockA/x", "true")] "dockA/x" PyVal.none
        = PyVal.str "true"
    ∧ get_value [("dockA/x", "true")] "dockA/x" (PyVal.str "fallback")
        = PyVal.str "true"
    ∧ get_value [("dockA/x", "true")] "dockA/x" (PyVal.int 7)
        = PyVal.str "true"
    ∧ pyStartsWith "dockA/x" "dockA" = true
    ∧ odLookup (save_tooldock_settings [("dockA/x", "true")] "dockA") "dockA/x"
        = some "true" := by
  have h1 := C10_get_value_raw_unless_bool.1 [("dockA/x", "true")] "dockA/x"
    "true" (by decide)
  have h2 := C10_get_value_raw_unless_bool.2 [("dockA/x", "true")] "dockA"
    "dockA/x" "true" (by decide) (by decide) (by decide)
  exact ⟨by decide, h1.1, h1.2.1 "fallback", h1.2.2 7, by decide, h2⟩
